import Mathlib

set_option maxRecDepth 40000

/-!
Verification of the rope-rigging equilibrium solver.

The source program is a TypeScript static-equilibrium solver for rigging
graphs (`solveEquilibrium` and its math helpers in the physics engine
module).  Numbers are embedded as rationals; JavaScript `Map` objects are
embedded as association lists in insertion order; the one genuine runtime
failure point (`A[0].length` on an empty matrix inside
`solveWeightedLeastSquares`) is embedded with `Option`, `none` standing for
the thrown `TypeError`.
-/

namespace RopeRigging

/-- Modelled from the spec: the 2D vector primitive (`Vector2`), whose
source file is not part of the provided sources (only its import site is).
Operations `add`, `sub`, `scale`, `normalize`, `length` with immutable
value semantics; `normalize` must fail gracefully on a ~zero vector by
returning the zero vector rather than dividing by zero. -/
structure Vector2 where
  x : ℚ
  y : ℚ
deriving DecidableEq, Repr

/-- Exact natural square root by bounded search, `none` for
non-squares. -/
def sqrtNatExact (n : ℕ) : Option ℕ :=
  (List.range (n + 1)).find? (fun k => k * k = n)

/-- Modelled from the spec: rational stand-in for `Math.sqrt`, exact on
rationals that are squares of rationals (in lowest terms both numerator
and denominator are perfect squares), and 0 elsewhere.  All concrete
geometry used in the development is axis-aligned with unit distances so
only exact square roots are exercised. -/
def ratSqrt (q : ℚ) : ℚ :=
  if 0 ≤ q.num then
    match sqrtNatExact q.num.natAbs, sqrtNatExact q.den with
    | some a, some b => (a : ℚ) / (b : ℚ)
    | _, _ => 0
  else 0

namespace Vector2

def zero : Vector2 := ⟨0, 0⟩

def add (a b : Vector2) : Vector2 := ⟨a.x + b.x, a.y + b.y⟩

def sub (a b : Vector2) : Vector2 := ⟨a.x - b.x, a.y - b.y⟩

def scale (a : Vector2) (k : ℚ) : Vector2 := ⟨a.x * k, a.y * k⟩

def lengthSq (a : Vector2) : ℚ := a.x * a.x + a.y * a.y

/-- Modelled from the spec: `length` = square root of the squared norm. -/
def len (a : Vector2) : ℚ := ratSqrt a.lengthSq

/-- Modelled from the spec: `normalize` returns the zero vector when the
magnitude is zero (graceful failure), else divides by the length. -/
def normalize (a : Vector2) : Vector2 :=
  let l := a.len
  if l = 0 then zero else ⟨a.x / l, a.y / l⟩

end Vector2

/-- `Node` record from the source: id, position, closed type tag, optional
sheave count (visual only, unused by the solver). -/
inductive NodeType where
  | ANCHOR | FREE | LOAD | PULLEY_FREE | PULLEY_ANCHOR
deriving DecidableEq, Repr

structure Node where
  id : String
  position : Vector2
  type : NodeType
  sheaveCount : Option ℕ := none
deriving DecidableEq, Repr

/-- `Segment` record from the source: id plus the two endpoint node ids. -/
structure Segment where
  id : String
  nodeAId : String
  nodeBId : String
deriving DecidableEq, Repr

/-- `Rope` record from the source: ordered segment ids (haul end first)
plus an optional color (visual only). -/
structure Rope where
  id : String
  segmentIds : List String
  color : Option String := none
deriving DecidableEq, Repr

/-- Stats block of `SimulationResult`. -/
structure SimStats where
  haulTension : ℚ
  loadRef : ℚ
  idealMA : ℚ
  effectiveMA : ℚ
deriving DecidableEq, Repr

/-- `SimulationResult` from the source; the two JavaScript `Map`s are
embedded as association lists in insertion order. -/
structure SimulationResult where
  tensions : List (String × ℚ)
  nodeForces : List (String × Vector2)
  stats : SimStats
deriving DecidableEq, Repr

/-- JavaScript `Map.set`: replace in place if the key is present (a `Map`
holds each key at most once), else append at the end (insertion order
preserved). -/
def mapSet {α : Type} (m : List (String × α)) (k : String) (v : α) : List (String × α) :=
  match m with
  | [] => [(k, v)]
  | p :: rest => if p.1 = k then (k, v) :: rest else p :: mapSet rest k v

/-- JavaScript `Map.get`: first (unique) entry for the key, if any. -/
def mapGet {α : Type} (m : List (String × α)) (k : String) : Option α :=
  (m.find? (fun p => p.1 = k)).map (fun p => p.2)

/-- Index assigned to a segment id by `segmentIndexMap` (a JS `Map` built
with `forEach(set)`, so the LAST occurrence wins for duplicate ids);
`none` when the id does not occur. -/
def lastIdxOf (ids : List String) (id : String) : Option ℕ :=
  (ids.foldl (fun (st : ℕ × Option ℕ) i =>
    (st.1 + 1, if i = id then some st.1 else st.2)) (0, none)).2

/-! ## Math helpers (`transpose`, `multiplyMatrices`, `multiplyMatrixVector`,
`solveGaussian`, `solveWeightedLeastSquares`), translated from the source.
Matrices are lists of row lists; out-of-range reads use `getD` with
default 0 / `[]` (never reached on the shapes the solver builds). -/

/-- `transpose(A)` from the source: `rows = A.length`, `cols = A[0].length`,
`At[j][i] = A[i][j]`. -/
def transpose (A : List (List ℚ)) : List (List ℚ) :=
  (List.range (A.headD []).length).map (fun j =>
    (List.range A.length).map (fun i => ((A.getD i []).getD j 0)))

/-- `multiplyMatrices(A, B)` from the source: triple loop,
`C[i][j] = Σ_k A[i][k] * B[k][j]` with `rA = A.length`, `cA = A[0].length`,
`cB = B[0].length`. -/
def multiplyMatrices (A B : List (List ℚ)) : List (List ℚ) :=
  (List.range A.length).map (fun i =>
    (List.range (B.headD []).length).map (fun j =>
      ((List.range (A.headD []).length).map (fun k =>
        ((A.getD i []).getD k 0) * ((B.getD k []).getD j 0))).sum))

/-- `multiplyMatrixVector(m, v)` from the source. -/
def multiplyMatrixVector (m : List (List ℚ)) (v : List ℚ) : List ℚ :=
  (List.range m.length).map (fun i =>
    ((List.range (m.headD []).length).map (fun j =>
      ((m.getD i []).getD j 0) * v.getD j 0)).sum)

/-- The `1e-10` pivot threshold of `solveGaussian`. -/
def eps10 : ℚ := 1 / 10 ^ 10

/-- Partial-pivot selection of `solveGaussian`: starting from `i_max = k`,
scan rows `k+1 .. n-1` and keep the row whose entry in column `k` has
strictly larger absolute value. -/
def pivotIdx (M : List (List ℚ)) (k n : ℕ) : ℕ :=
  ((List.range (n - (k + 1))).map (fun d => k + 1 + d)).foldl
    (fun imax i =>
      if |((M.getD imax []).getD k 0)| < |((M.getD i []).getD k 0)| then i else imax) k

/-- Row swap `[M[k], M[i]] = [M[i], M[k]]`. -/
def swapRows (M : List (List ℚ)) (k i : ℕ) : List (List ℚ) :=
  (M.set k (M.getD i [])).set i (M.getD k [])

/-- Entry swap `[x[k], x[i]] = [x[i], x[k]]`. -/
def swapVals (x : List ℚ) (k i : ℕ) : List ℚ :=
  (x.set k (x.getD i 0)).set i (x.getD k 0)

/-- One iteration of the elimination loop of `solveGaussian` for column
`k`: pivot search, row swap, then either skip (pivot below `1e-10`) or
eliminate column `k` from all lower rows. -/
def elimStep (n : ℕ) (st : List (List ℚ) × List ℚ) (k : ℕ) : List (List ℚ) × List ℚ :=
  let im := pivotIdx st.1 k n
  let M1 := if im ≠ k then swapRows st.1 k im else st.1
  let x1 := if im ≠ k then swapVals st.2 k im else st.2
  if |((M1.getD k []).getD k 0)| < eps10 then (M1, x1)
  else
    let pivotRow := M1.getD k []
    let piv := pivotRow.getD k 0
    let M2 := M1.enum.map (fun p =>
      if k < p.1 then
        let f := (p.2.getD k 0) / piv
        p.2.enum.map (fun q => if k ≤ q.1 then q.2 - (pivotRow.getD q.1 0) * f else q.2)
      else p.2)
    let x2 := x1.enum.map (fun p =>
      if k < p.1 then p.2 - (x1.getD k 0) * (((M1.getD p.1 []).getD k 0) / piv) else p.2)
    (M2, x2)

/-- The forward-elimination loop `for (k = 0; k < n; k++)`; `fuel`
counts the remaining iterations, so the current column is `n - fuel`. -/
def gaussForward (n : ℕ) : ℕ → (List (List ℚ) × List ℚ) → (List (List ℚ) × List ℚ)
  | 0, st => st
  | fuel + 1, st => gaussForward n fuel (elimStep n st (n - (fuel + 1)))

/-- `Σ_{j > i} M[i][j] * result[j]` of back substitution, where `tail`
holds `result[i+1 .. n-1]`. -/
def backSubSum (row : List ℚ) (i : ℕ) (tail : List ℚ) : ℚ :=
  (tail.enum.map (fun p => row.getD (i + 1 + p.1) 0 * p.2)).sum

/-- Back-substitution loop `for (i = n-1; i >= 0; i--)` of
`solveGaussian`; the recursion builds `result[n-fuel .. n-1]`, assigning
0 whenever the diagonal entry is not above `1e-10` in absolute value. -/
def backSubAux (M : List (List ℚ)) (x : List ℚ) (n : ℕ) : ℕ → List ℚ
  | 0 => []
  | fuel + 1 =>
    let i := n - (fuel + 1)
    let tail := backSubAux M x n fuel
    let diag := (M.getD i []).getD i 0
    let v := if eps10 < |diag| then (x.getD i 0 - backSubSum (M.getD i []) i tail) / diag else 0
    v :: tail

/-- `solveGaussian(A, b)` from the source: Gaussian elimination with
partial pivoting and lenient singularity handling. -/
def solveGaussian (A : List (List ℚ)) (b : List ℚ) : List ℚ :=
  let n := A.length
  let st := gaussForward n n (A, b)
  backSubAux st.1 st.2 n n

/-- `solveWeightedLeastSquares(A, B, Weights)` from the source.  In
JavaScript `A[0].length` throws a `TypeError` when `A` is empty; that
failure is embedded as `none`.  Otherwise weights multiply both sides
directly (not by square root), normal equations are formed and passed to
the Gaussian solver. -/
def solveWeightedLeastSquares (A : List (List ℚ)) (B Weights : List ℚ) :
    Option (List ℚ) :=
  match A with
  | [] => none
  | r0 :: _ =>
    if r0.length = 0 then some [] else
    let Aw := A.enum.map (fun p => p.2.map (fun v => v * Weights.getD p.1 0))
    let Bw := B.enum.map (fun p => p.2 * Weights.getD p.1 0)
    let At := transpose Aw
    let AtA := multiplyMatrices At Aw
    let AtB := multiplyMatrixVector At Bw
    some (solveGaussian AtA AtB)

/-! ## Equilibrium system builder and orchestrator. -/

/-- The `{A, B, Weights}` triple assembled for the weighted least-squares
solve. -/
structure LinSystem where
  A : List (List ℚ)
  B : List ℚ
  Weights : List ℚ
deriving DecidableEq, Repr

/-- `nodes.filter(n => n.type !== 'ANCHOR' && n.type !== 'PULLEY_ANCHOR')`. -/
def freeNodesOf (nodes : List Node) : List Node :=
  nodes.filter (fun n => n.type ≠ NodeType.ANCHOR ∧ n.type ≠ NodeType.PULLEY_ANCHOR)

/-- External downward load applied at a node: the full load weight at
`LOAD` and `PULLEY_FREE` nodes, zero otherwise. -/
def extYOf (loadWeight : ℚ) (n : Node) : ℚ :=
  if n.type = NodeType.LOAD ∨ n.type = NodeType.PULLEY_FREE then loadWeight else 0

/-- `nodes.find(n => n.id === id)!`; total stand-in defaulting to a junk
anchor, reached only on graphs where the JavaScript would throw. -/
def findNode (nodes : List Node) (id : String) : Node :=
  (nodes.find? (fun n => n.id = id)).getD ⟨"", Vector2.zero, NodeType.ANCHOR, none⟩

/-- Unit direction from `node` toward the other endpoint of `seg`
(`otherNode.position.sub(node.position).normalize()`). -/
def dirFrom (nodes : List Node) (node : Node) (seg : Segment) : Vector2 :=
  let otherId := if seg.nodeAId = node.id then seg.nodeBId else seg.nodeAId
  ((findNode nodes otherId).position.sub node.position).normalize

/-- `row[i] += v` on a dense row. -/
def addAt (row : List ℚ) (i : ℕ) (v : ℚ) : List ℚ :=
  row.set i (row.getD i 0 + v)

/-- The two force-balance rows (x-axis, y-axis) assembled for one free
node: fold over all segments, accumulating the incident unit directions
at the segment's column. -/
def forceRowPair (nodes : List Node) (segments : List Segment) (node : Node) :
    List ℚ × List ℚ :=
  let ids := segments.map Segment.id
  let M := ids.length
  segments.foldl (fun acc seg =>
    if seg.nodeAId = node.id ∨ seg.nodeBId = node.id then
      let segIdx := (lastIdxOf ids seg.id).getD 0
      let dir := dirFrom nodes node seg
      (addAt acc.1 segIdx dir.x, addAt acc.2 segIdx dir.y)
    else acc) (List.replicate M 0, List.replicate M 0)

/-- Adjacent pairs `(segmentIds[i], segmentIds[i+1])` of a rope, in
order. -/
def adjPairs {α : Type} : List α → List (α × α)
  | [] => []
  | [_] => []
  | a :: b :: t => (a, b) :: adjPairs (b :: t)

/-- One rope-continuity row: `A[r][nIdx] = 1` then `A[r][pIdx] =
-efficiency` (in that order, so for `pIdx = nIdx` the second write wins);
a missing id leaves the row untouched, as the JavaScript write to index
`undefined` does not change the dense row. -/
def contRow (ids : List String) (M : ℕ) (efficiency : ℚ) (pr : String × String) :
    List ℚ :=
  let row : List ℚ := List.replicate M 0
  let row1 := match lastIdxOf ids pr.2 with
    | some n => row.set n 1
    | none => row
  match lastIdxOf ids pr.1 with
  | some p => row1.set p (-efficiency)
  | none => row1

/-- `buildSystem(nodes, segments, ropes, loadWeight, efficiency)` from the
source: force-balance rows (weight 1.0) for every free node followed by
rope-continuity rows (weight 1000.0) for every adjacent segment pair. -/
def buildSystem (nodes : List Node) (segments : List Segment) (ropes : List Rope)
    (loadWeight efficiency : ℚ) : LinSystem :=
  let ids := segments.map Segment.id
  let M := ids.length
  let freeNodes := freeNodesOf nodes
  let forceA := freeNodes.flatMap (fun nd =>
    let pr := forceRowPair nodes segments nd
    [pr.1, pr.2])
  let forceB := freeNodes.flatMap (fun nd => [(0 : ℚ), -(extYOf loadWeight nd)])
  let ropeA := ropes.flatMap (fun rope =>
    (adjPairs rope.segmentIds).map (contRow ids M efficiency))
  let ropeB := ropes.flatMap (fun rope =>
    (adjPairs rope.segmentIds).map (fun _ => (0 : ℚ)))
  let ropeW := ropes.flatMap (fun rope =>
    (adjPairs rope.segmentIds).map (fun _ => (1000 : ℚ)))
  ⟨forceA ++ ropeA, forceB ++ ropeB, List.replicate (2 * freeNodes.length) 1 ++ ropeW⟩

/-- The system assembly inlined in the body of `solveEquilibrium`
(lines building `A`, `B`, `Weights` before the least-squares call),
translated separately from `buildSystem` so their agreement is a
theorem, not an assumption. -/
def assembleInline (nodes : List Node) (segments : List Segment) (ropes : List Rope)
    (loadWeight efficiency : ℚ) : LinSystem :=
  let ids := segments.map Segment.id
  let M := ids.length
  let freeNodes := freeNodesOf nodes
  let forceA := freeNodes.flatMap (fun nd =>
    let pr := forceRowPair nodes segments nd
    [pr.1, pr.2])
  let forceB := freeNodes.flatMap (fun nd => [(0 : ℚ), -(extYOf loadWeight nd)])
  let ropeA := ropes.flatMap (fun rope =>
    (adjPairs rope.segmentIds).map (contRow ids M efficiency))
  let ropeB := ropes.flatMap (fun rope =>
    (adjPairs rope.segmentIds).map (fun _ => (0 : ℚ)))
  let ropeW := ropes.flatMap (fun rope =>
    (adjPairs rope.segmentIds).map (fun _ => (1000 : ℚ)))
  ⟨forceA ++ ropeA, forceB ++ ropeB, List.replicate (2 * freeNodes.length) 1 ++ ropeW⟩

/-- `effectiveEfficiency`: the 1:1 override forces efficiency 1.0 when
`targetMA === 1`. -/
def effectiveEfficiency (efficiency : ℚ) (targetMA : Option ℚ) : ℚ :=
  if targetMA = some 1 then 1 else efficiency

/-- `solveInternal`: build, guard the empty/zero-column system, solve. -/
def solveInternal (nodes : List Node) (segments : List Segment) (ropes : List Rope)
    (loadWeight efficiency : ℚ) : List ℚ :=
  let sys := buildSystem nodes segments ropes loadWeight efficiency
  if sys.A.length = 0 ∨ (sys.A.headD []).length = 0 then []
  else (solveWeightedLeastSquares sys.A sys.B sys.Weights).getD []

/-- The tensions `Map`: `unknownSegmentIds.forEach((id, idx) =>
tensions.set(id, Math.max(0, tensionValues[idx])))`. -/
def buildTensionsGo (raw : List ℚ) : ℕ → List String → List (String × ℚ) →
    List (String × ℚ)
  | _, [], m => m
  | i, id :: rest, m => buildTensionsGo raw (i + 1) rest (mapSet m id (max 0 (raw.getD i 0)))

def buildTensions (ids : List String) (raw : List ℚ) : List (String × ℚ) :=
  buildTensionsGo raw 0 ids []

/-- Resultant force at one node: external load for `LOAD` nodes plus the
sum of incident unit directions scaled by the resolved tensions
(`tensions.get(seg.id) || 0`). -/
def nodeForceFor (nodes : List Node) (segments : List Segment)
    (tensions : List (String × ℚ)) (loadWeight : ℚ) (node : Node) : Vector2 :=
  let base := if node.type = NodeType.LOAD
    then Vector2.zero.add ⟨0, loadWeight⟩ else Vector2.zero
  segments.foldl (fun force seg =>
    if seg.nodeAId = node.id ∨ seg.nodeBId = node.id then
      let t := (mapGet tensions seg.id).getD 0
      let dir := dirFrom nodes node seg
      force.add (dir.scale t)
    else force) base

/-- `idealRes[segmentIndexMap.get(ropes[0].segmentIds[0])!]` guarded by
`ropes.length > 0 && ropes[0].segmentIds.length > 0`: the haul value of
the independent efficiency-1 re-solve. -/
def idealHaulOf (nodes : List Node) (segments : List Segment) (ropes : List Rope)
    (loadWeight : ℚ) : ℚ :=
  let ids := segments.map Segment.id
  let idealRes := solveInternal nodes segments ropes loadWeight 1
  match ropes with
  | [] => 0
  | r0 :: _ =>
    match r0.segmentIds with
    | [] => 0
    | s0 :: _ =>
      match lastIdxOf ids s0 with
      | some k => idealRes.getD k 0
      | none => 0

/-- `tensions.get(ropes[0].segmentIds[0]) || 0` guarded by
`ropes.length > 0 && ropes[0].segmentIds.length > 0`. -/
def haulFromTensions (ropes : List Rope) (tensions : List (String × ℚ)) : ℚ :=
  match ropes with
  | [] => 0
  | r0 :: _ =>
    match r0.segmentIds with
    | [] => 0
    | s0 :: _ => (mapGet tensions s0).getD 0

/-- Post-processing of the raw least-squares solution inside
`solveEquilibrium`: clamp tensions, compute node forces, MA stats and the
optional `targetMA` display override (which runs only when the argument
is present and truthy, i.e. nonzero). -/
def postSolve (nodes : List Node) (segments : List Segment) (ropes : List Rope)
    (loadWeight efficiency : ℚ) (targetMA : Option ℚ) (tensionValues : List ℚ) :
    SimulationResult :=
  let ids := segments.map Segment.id
  let tensions := buildTensions ids tensionValues
  let nodeForces := nodes.foldl (fun m nd =>
    mapSet m nd.id (nodeForceFor nodes segments tensions loadWeight nd)) []
  let haulTension : ℚ := haulFromTensions ropes tensions
  let effectiveMA := if 0 < haulTension then loadWeight / haulTension else 0
  let idealHaul := idealHaulOf nodes segments ropes loadWeight
  let idealMA := if 0 < idealHaul then loadWeight / idealHaul else 0
  match targetMA with
  | none => ⟨tensions, nodeForces, ⟨haulTension, loadWeight, idealMA, effectiveMA⟩⟩
  | some t =>
    if t = 0 then
      ⟨tensions, nodeForces, ⟨haulTension, loadWeight, idealMA, effectiveMA⟩⟩
    else
      let haulT := loadWeight / t
      ⟨tensions.map (fun p => (p.1, haulT)), nodeForces,
        ⟨haulT, loadWeight, t,
         if |efficiency - 1| < 1 / 100 then t else loadWeight / haulT⟩⟩

/-- `solveEquilibrium(nodes, segments, ropes, loadWeight, efficiency,
targetMA?)` from the source.  `none` embeds the `TypeError` thrown by
`solveWeightedLeastSquares` on a zero-row coefficient matrix. -/
def solveEquilibrium (nodes : List Node) (segments : List Segment) (ropes : List Rope)
    (loadWeight efficiency : ℚ) (targetMA : Option ℚ) : Option SimulationResult :=
  let effEff := effectiveEfficiency efficiency targetMA
  let ids := segments.map Segment.id
  if ids.length = 0 then
    some ⟨[], [], ⟨0, loadWeight, 1, 1⟩⟩
  else
    let sys := assembleInline nodes segments ropes loadWeight effEff
    (solveWeightedLeastSquares sys.A sys.B sys.Weights).map
      (postSolve nodes segments ropes loadWeight efficiency targetMA)

/-! ## Concrete rigs used as witnesses and counterexamples. -/

/-- Load node hanging at `(0, 1)`. -/
def loadNodeV : Node := ⟨"L", ⟨0, 1⟩, NodeType.LOAD, none⟩

/-- Anchor at the origin. -/
def anchorNodeO : Node := ⟨"A", ⟨0, 0⟩, NodeType.ANCHOR, none⟩

/-- Single segment from the load to the anchor. -/
def hangSegment : Segment := ⟨"s1", "L", "A"⟩

/-- Single-segment rope whose haul end is that segment. -/
def hangRope : Rope := ⟨"r1", ["s1"], none⟩

/-- Vertical hang: the load is directly below the anchor, a consistent
rig solved exactly (tension = load weight). -/
def hangNodes : List Node := [loadNodeV, anchorNodeO]

/-- Load node at the origin for the horizontal layout. -/
def loadNodeH : Node := ⟨"L", ⟨0, 0⟩, NodeType.LOAD, none⟩

/-- Anchor at `(1, 0)`, horizontally beside the load. -/
def anchorNodeH : Node := ⟨"A", ⟨1, 0⟩, NodeType.ANCHOR, none⟩

/-- Horizontal layout: the load's only segment is horizontal, so no
tension value can balance gravity. -/
def horizNodes : List Node := [loadNodeH, anchorNodeH]

/-- Second anchor for the anchor-to-anchor rig. -/
def anchorNodeB : Node := ⟨"B", ⟨1, 0⟩, NodeType.ANCHOR, none⟩

/-- Segment joining the two anchors. -/
def segAB : Segment := ⟨"s1", "A", "B"⟩

/-- Well-formedness of a rigging graph: every segment endpoint references
an existing node id and every rope entry references an existing segment
id. -/
def wellFormedGraph (nodes : List Node) (segments : List Segment) (ropes : List Rope) :
    Prop :=
  (∀ s ∈ segments, nodes.any (fun n => n.id = s.nodeAId) ∧
    nodes.any (fun n => n.id = s.nodeBId)) ∧
  (∀ rp ∈ ropes, ∀ sid ∈ rp.segmentIds, segments.any (fun s => s.id = sid))

/-! ## General structure lemmas. -/

lemma solveEquilibrium_eq_some (nodes : List Node) (segments : List Segment)
    (ropes : List Rope) (W eff : ℚ) (tma : Option ℚ) (r : SimulationResult)
    (hs : segments ≠ [])
    (h : solveEquilibrium nodes segments ropes W eff tma = some r) :
    ∃ tv,
      solveWeightedLeastSquares
        (assembleInline nodes segments ropes W (effectiveEfficiency eff tma)).A
        (assembleInline nodes segments ropes W (effectiveEfficiency eff tma)).B
        (assembleInline nodes segments ropes W (effectiveEfficiency eff tma)).Weights
        = some tv ∧
      r = postSolve nodes segments ropes W eff tma tv := by
  have hids : ¬((segments.map Segment.id).length = 0) := by
    simpa [List.length_eq_zero] using hs
  unfold solveEquilibrium at h
  rw [if_neg hids] at h
  cases hwls : solveWeightedLeastSquares
      (assembleInline nodes segments ropes W (effectiveEfficiency eff tma)).A
      (assembleInline nodes segments ropes W (effectiveEfficiency eff tma)).B
      (assembleInline nodes segments ropes W (effectiveEfficiency eff tma)).Weights with
  | none =>
    simp only [hwls, Option.map_none'] at h
    exact absurd h (by simp)
  | some tv =>
    simp only [hwls, Option.map_some', Option.some.injEq] at h
    exact ⟨tv, rfl, h.symm⟩

/-- C10: the inline system assembly of `solveEquilibrium` coincides with
`buildSystem` on all arguments, so the main solve and the `idealMA`
re-solve via `solveInternal` run the same system-building pipeline. -/
theorem assembleInline_eq_buildSystem (nodes : List Node) (segments : List Segment)
    (ropes : List Rope) (W eff : ℚ) :
    assembleInline nodes segments ropes W eff = buildSystem nodes segments ropes W eff := rfl

/-- C7 counterexample: `solveEquilibrium([], [], [], 100, 1.0)` does NOT
return zero-valued stats — `idealMA` (and `effectiveMA`) come back as 1,
and `loadRef` as the load weight. -/
theorem emptyGraph_counterexample :
    (Option.map (fun r => r.stats.idealMA) (solveEquilibrium [] [] [] 100 1 none)
      = some 1) ∧ (1 : ℚ) ≠ 0 := by
  exact ⟨rfl, by norm_num⟩

/-- C7 amended: any call with an empty segment list returns without
throwing, before any matrix is built, with an empty tensions map, empty
node-force map, and stats `{haulTension 0, loadRef = loadWeight,
idealMA 1, effectiveMA 1}` (not all-zero). -/
theorem emptyGraph_spec (nodes : List Node) (ropes : List Rope) (W eff : ℚ)
    (tma : Option ℚ) :
    solveEquilibrium nodes [] ropes W eff tma = some ⟨[], [], ⟨0, W, 1, 1⟩⟩ := rfl

/-- C9: a well-formed graph with no free node and no continuity row
yields a zero-row coefficient matrix, on which
`solveWeightedLeastSquares` evaluates `A[0].length` and throws
(embedded as `none`): `solveEquilibrium` does raise an exception on this
well-formed input, contradicting the claim (and the guard present in
`solveInternal` shows the intended behavior). -/
theorem zeroRows_throws :
    wellFormedGraph [anchorNodeO, anchorNodeB] [segAB] [] ∧
    solveEquilibrium [anchorNodeO, anchorNodeB] [segAB] [] 100 1 none = none := by
  constructor
  · refine ⟨?_, ?_⟩ <;> decide
  · rfl

/-- Junk default used only to name the value inside a `some` result. -/
def defaultResult : SimulationResult := ⟨[], [], ⟨0, 0, 0, 0⟩⟩

lemma postSolve_override_stats (nodes : List Node) (segments : List Segment)
    (ropes : List Rope) (W eff t : ℚ) (tv : List ℚ) (ht : t ≠ 0) :
    (postSolve nodes segments ropes W eff (some t) tv).stats =
      ⟨W / t, W, t, if |eff - 1| < 1 / 100 then t else W / (W / t)⟩ := by
  simp [postSolve, ht]

lemma postSolve_override_tensions (nodes : List Node) (segments : List Segment)
    (ropes : List Rope) (W eff t : ℚ) (tv : List ℚ) (ht : t ≠ 0) :
    (postSolve nodes segments ropes W eff (some t) tv).tensions =
      (buildTensions (segments.map Segment.id) tv).map (fun p => (p.1, W / t)) := by
  simp [postSolve, ht]

/-- C4: with `targetMA === 1` (and a nonempty segment list), every
returned result reports haul tension exactly equal to the load weight,
whatever the efficiency parameter; and the solve internally uses
`effectiveEfficiency = 1.0` regardless of the passed efficiency. -/
theorem target_one_haul (nodes : List Node) (segments : List Segment)
    (ropes : List Rope) (W eff : ℚ) (r : SimulationResult)
    (hs : segments ≠ [])
    (hr : solveEquilibrium nodes segments ropes W eff (some 1) = some r) :
    r.stats.haulTension = W ∧ effectiveEfficiency eff (some 1) = 1 := by
  obtain ⟨tv, hwls, rfl⟩ := solveEquilibrium_eq_some _ _ _ _ _ _ _ hs hr
  constructor
  · rw [postSolve_override_stats _ _ _ _ _ _ _ one_ne_zero]
    simp
  · simp [effectiveEfficiency]

/-- Witness for C4 at the vertical hang rig with efficiency 1 and
`targetMA = 1`. -/
theorem target_one_haul_witness :
    ((solveEquilibrium hangNodes [hangSegment] [hangRope] 100 1 (some 1)).getD
      defaultResult).stats.haulTension = 100 ∧
    effectiveEfficiency 1 (some 1) = 1 :=
  target_one_haul hangNodes [hangSegment] [hangRope] 100 1 _ (by decide)
    (by with_unfolding_all rfl)

/-- C3 counterexample: `targetMA = 0` IS a supplied argument, but being
falsy in JavaScript it does not trigger the override: the reported
`idealMA` is the physically solved 1, not the supplied `targetMA = 0`. -/
theorem targetMA_zero_counterexample :
    (Option.map (fun r => r.stats.idealMA)
      (solveEquilibrium hangNodes [hangSegment] [hangRope] 100 1 (some 0))
      = some 1) ∧ (1 : ℚ) ≠ (0 : ℚ) :=
  ⟨by with_unfolding_all rfl, by norm_num⟩

/-- C3 amended: whenever a NONZERO (truthy) `targetMA` is supplied and at
least one segment exists, the returned stats have `idealMA = targetMA`
exactly, `haulTension = loadWeight / targetMA`, every reported segment
tension equal to that same value, and `effectiveMA` equal to `targetMA`
when `|efficiency - 1| < 0.01` and to `loadWeight / (loadWeight /
targetMA)` otherwise. -/
theorem targetMA_override_spec (nodes : List Node) (segments : List Segment)
    (ropes : List Rope) (W eff t : ℚ) (r : SimulationResult)
    (hs : segments ≠ []) (ht : t ≠ 0)
    (hr : solveEquilibrium nodes segments ropes W eff (some t) = some r) :
    r.stats.idealMA = t ∧ r.stats.haulTension = W / t ∧
    (∀ p ∈ r.tensions, p.2 = W / t) ∧
    r.stats.effectiveMA = (if |eff - 1| < 1 / 100 then t else W / (W / t)) := by
  obtain ⟨tv, hwls, rfl⟩ := solveEquilibrium_eq_some _ _ _ _ _ _ _ hs hr
  refine ⟨?_, ?_, ?_, ?_⟩
  · rw [postSolve_override_stats _ _ _ _ _ _ _ ht]
  · rw [postSolve_override_stats _ _ _ _ _ _ _ ht]
  · rw [postSolve_override_tensions _ _ _ _ _ _ _ ht]
    intro p hp
    simp only [List.mem_map] at hp
    obtain ⟨q, _, rfl⟩ := hp
    rfl
  · rw [postSolve_override_stats _ _ _ _ _ _ _ ht]

/-- Witness for C3 at the vertical hang rig with `loadWeight = 100`,
`efficiency = 1/2`, `targetMA = 3`. -/
theorem targetMA_override_spec_witness :
    ((solveEquilibrium hangNodes [hangSegment] [hangRope] 100 (1/2) (some 3)).getD
        defaultResult).stats.idealMA = 3 ∧
    ((solveEquilibrium hangNodes [hangSegment] [hangRope] 100 (1/2) (some 3)).getD
        defaultResult).stats.haulTension = 100 / 3 ∧
    (∀ p ∈ ((solveEquilibrium hangNodes [hangSegment] [hangRope] 100 (1/2) (some 3)).getD
        defaultResult).tensions, p.2 = 100 / 3) ∧
    ((solveEquilibrium hangNodes [hangSegment] [hangRope] 100 (1/2) (some 3)).getD
        defaultResult).stats.effectiveMA
      = (if |(1/2 : ℚ) - 1| < 1 / 100 then 3 else 100 / (100 / 3)) :=
  targetMA_override_spec hangNodes [hangSegment] [hangRope] 100 (1/2) 3 _
    (by decide) (by norm_num) (by with_unfolding_all rfl)

lemma mapSet_forall {α : Type} (P : α → Prop) (m : List (String × α)) (k : String)
    (v : α) (hm : ∀ p ∈ m, P p.2) (hv : P v) : ∀ p ∈ mapSet m k v, P p.2 := by
  induction m with
  | nil =>
    intro p hp
    simp only [mapSet, List.mem_singleton] at hp
    subst hp
    exact hv
  | cons q rest ih =>
    intro p hp
    simp only [mapSet] at hp
    split at hp
    · rcases List.mem_cons.1 hp with rfl | h
      · exact hv
      · exact hm p (List.mem_cons_of_mem _ h)
    · rcases List.mem_cons.1 hp with rfl | h
      · exact hm p (List.mem_cons_self _ _)
      · exact ih (fun q' hq' => hm q' (List.mem_cons_of_mem _ hq')) p h

lemma buildTensionsGo_nonneg (raw : List ℚ) :
    ∀ (ids : List String) (i : ℕ) (m : List (String × ℚ)),
      (∀ p ∈ m, 0 ≤ p.2) → ∀ p ∈ buildTensionsGo raw i ids m, 0 ≤ p.2 := by
  intro ids
  induction ids with
  | nil => intro i m hm; exact hm
  | cons id rest ih =>
    intro i m hm
    exact ih (i + 1) _ (mapSet_forall _ _ _ _ hm (le_max_left _ _))

lemma buildTensions_nonneg (ids : List String) (raw : List ℚ) :
    ∀ p ∈ buildTensions ids raw, 0 ≤ p.2 :=
  buildTensionsGo_nonneg raw ids 0 [] (by simp)

lemma postSolve_tensions_nonoverride (nodes : List Node) (segments : List Segment)
    (ropes : List Rope) (W eff : ℚ) (tma : Option ℚ) (tv : List ℚ)
    (h : tma = none ∨ tma = some 0) :
    (postSolve nodes segments ropes W eff tma tv).tensions =
      buildTensions (segments.map Segment.id) tv := by
  rcases h with h | h <;> subst h <;> simp [postSolve]

/-- C5 counterexample: with a (truthy) `targetMA` override and an input
for which `loadWeight / targetMA` is negative (here `targetMA = -2`), the
returned tension of the only segment is -50, violating non-negativity. -/
theorem tension_negative_counterexample :
    (Option.map (fun r => (mapGet r.tensions "s1").getD 0)
      (solveEquilibrium hangNodes [hangSegment] [hangRope] 100 1 (some (-2)))
      = some (-50)) ∧ ¬((0 : ℚ) ≤ -50) := by
  exact ⟨by with_unfolding_all rfl, by norm_num⟩

/-- C5 amended: every tension returned by `solveEquilibrium` is ≥ 0 for
all inputs WITHOUT a truthy `targetMA` override (the clamp `max 0 _`);
with a truthy override the tensions are the single value
`loadWeight / targetMA`, hence ≥ 0 exactly when that quotient is ≥ 0. -/
theorem tensions_nonneg (nodes : List Node) (segments : List Segment)
    (ropes : List Rope) (W eff : ℚ) (tma : Option ℚ) (r : SimulationResult)
    (hr : solveEquilibrium nodes segments ropes W eff tma = some r) :
    (tma = none ∨ tma = some 0 → ∀ p ∈ r.tensions, 0 ≤ p.2) ∧
    (∀ t : ℚ, tma = some t → t ≠ 0 → 0 ≤ W / t → ∀ p ∈ r.tensions, 0 ≤ p.2) := by
  by_cases hs : segments = []
  · subst hs
    have : r = ⟨[], [], ⟨0, W, 1, 1⟩⟩ := by
      have := emptyGraph_spec nodes ropes W eff tma
      rw [this] at hr
      exact (Option.some.inj hr).symm
    subst this
    constructor
    · intro _ p hp; simp at hp
    · intro t _ _ _ p hp; simp at hp
  · obtain ⟨tv, hwls, rfl⟩ := solveEquilibrium_eq_some _ _ _ _ _ _ _ hs hr
    constructor
    · intro h
      rw [postSolve_tensions_nonoverride _ _ _ _ _ _ _ h]
      exact buildTensions_nonneg _ _
    · intro t ht htne hq
      subst ht
      rw [postSolve_override_tensions _ _ _ _ _ _ _ htne]
      intro p hp
      simp only [List.mem_map] at hp
      obtain ⟨q, _, rfl⟩ := hp
      exact hq

/-- Witness for C5 at the vertical hang rig without override, evaluated
at the single tension entry `("s1", 100)`. -/
theorem tensions_nonneg_witness :
    (0 : ℚ) ≤ (("s1", (100 : ℚ))).2 :=
  (tensions_nonneg hangNodes [hangSegment] [hangRope] 100 1 none
    ((solveEquilibrium hangNodes [hangSegment] [hangRope] 100 1 none).getD
      defaultResult)
    (by with_unfolding_all rfl)).1 (Or.inl rfl) ("s1", 100)
    (by with_unfolding_all decide)

lemma postSolve_stats_none (nodes : List Node) (segments : List Segment)
    (ropes : List Rope) (W eff : ℚ) (tv : List ℚ) :
    (postSolve nodes segments ropes W eff none tv).stats =
      ⟨haulFromTensions ropes (buildTensions (segments.map Segment.id) tv), W,
       (if 0 < idealHaulOf nodes segments ropes W
          then W / idealHaulOf nodes segments ropes W else 0),
       (if 0 < haulFromTensions ropes (buildTensions (segments.map Segment.id) tv)
          then W / haulFromTensions ropes (buildTensions (segments.map Segment.id) tv)
          else 0)⟩ := by
  simp [postSolve]

/-- C8 counterexample: with the truthy override `targetMA = 3` and
`loadWeight = 0`, the reported haul tension is 0 while `idealMA` and
`effectiveMA` are 3, not 0 — the haul-zero special case does not govern
the override path. -/
theorem haulZero_counterexample :
    (Option.map (fun r => (r.stats.haulTension, r.stats.idealMA, r.stats.effectiveMA))
      (solveEquilibrium hangNodes [hangSegment] [hangRope] 0 1 (some 3))
      = some (0, 3, 3)) ∧ (3 : ℚ) ≠ 0 := by
  exact ⟨by with_unfolding_all rfl, by norm_num⟩

/-- C8 amended: in the absence of a `targetMA` override (and with at
least one segment), the MA stats are guarded rational expressions:
`effectiveMA = loadWeight / haulTension` exactly when `haulTension > 0`
and 0 when `haulTension = 0`; `idealMA = loadWeight / idealHaul` exactly
when the efficiency-1 re-solve's haul `idealHaul` is positive and 0
otherwise — so neither ratio divides by a non-positive haul. -/
theorem maStats_spec (nodes : List Node) (segments : List Segment)
    (ropes : List Rope) (W eff : ℚ) (r : SimulationResult)
    (hs : segments ≠ [])
    (hr : solveEquilibrium nodes segments ropes W eff none = some r) :
    (r.stats.haulTension = 0 → r.stats.effectiveMA = 0) ∧
    (0 < r.stats.haulTension → r.stats.effectiveMA = W / r.stats.haulTension) ∧
    (idealHaulOf nodes segments ropes W ≤ 0 → r.stats.idealMA = 0) ∧
    (0 < idealHaulOf nodes segments ropes W →
      r.stats.idealMA = W / idealHaulOf nodes segments ropes W) := by
  obtain ⟨tv, hwls, rfl⟩ := solveEquilibrium_eq_some _ _ _ _ _ _ _ hs hr
  rw [postSolve_stats_none]
  refine ⟨?_, ?_, ?_, ?_⟩
  · intro h
    have h' : haulFromTensions ropes (buildTensions (List.map Segment.id segments) tv) = 0 := h
    show (if 0 < haulFromTensions ropes (buildTensions (List.map Segment.id segments) tv)
      then W / haulFromTensions ropes (buildTensions (List.map Segment.id segments) tv)
      else 0) = 0
    rw [h']
    norm_num
  · intro h
    have h' : 0 < haulFromTensions ropes (buildTensions (List.map Segment.id segments) tv) := h
    show (if 0 < haulFromTensions ropes (buildTensions (List.map Segment.id segments) tv)
      then W / haulFromTensions ropes (buildTensions (List.map Segment.id segments) tv)
      else 0) = _
    rw [if_pos h']
  · intro h
    show (if 0 < idealHaulOf nodes segments ropes W
      then W / idealHaulOf nodes segments ropes W else 0) = 0
    rw [if_neg (not_lt.2 h)]
  · intro h
    show (if 0 < idealHaulOf nodes segments ropes W
      then W / idealHaulOf nodes segments ropes W else 0) = _
    rw [if_pos h]

/-- Witness for C8 at the vertical hang rig. -/
theorem maStats_spec_witness :
    (((solveEquilibrium hangNodes [hangSegment] [hangRope] 100 1 none).getD
        defaultResult).stats.haulTension = 0 →
      ((solveEquilibrium hangNodes [hangSegment] [hangRope] 100 1 none).getD
        defaultResult).stats.effectiveMA = 0) ∧
    (0 < ((solveEquilibrium hangNodes [hangSegment] [hangRope] 100 1 none).getD
        defaultResult).stats.haulTension →
      ((solveEquilibrium hangNodes [hangSegment] [hangRope] 100 1 none).getD
        defaultResult).stats.effectiveMA =
        100 / ((solveEquilibrium hangNodes [hangSegment] [hangRope] 100 1 none).getD
        defaultResult).stats.haulTension) ∧
    (idealHaulOf hangNodes [hangSegment] [hangRope] 100 ≤ 0 →
      ((solveEquilibrium hangNodes [hangSegment] [hangRope] 100 1 none).getD
        defaultResult).stats.idealMA = 0) ∧
    (0 < idealHaulOf hangNodes [hangSegment] [hangRope] 100 →
      ((solveEquilibrium hangNodes [hangSegment] [hangRope] 100 1 none).getD
        defaultResult).stats.idealMA =
        100 / idealHaulOf hangNodes [hangSegment] [hangRope] 100) :=
  maStats_spec hangNodes [hangSegment] [hangRope] 100 1 _ (by decide)
    (by with_unfolding_all rfl)

/-! ## List helper lemmas. -/

lemma getD_set_self (l : List ℚ) (i : ℕ) (v d : ℚ) (h : i < l.length) :
    (l.set i v).getD i d = v := by
  rw [List.getD_eq_getElem?_getD, List.getElem?_set, if_pos rfl, if_pos h]
  rfl

lemma getD_set_ne (l : List ℚ) (i j : ℕ) (v d : ℚ) (h : i ≠ j) :
    (l.set i v).getD j d = l.getD j d := by
  rw [List.getD_eq_getElem?_getD, List.getElem?_set, if_neg h,
    ← List.getD_eq_getElem?_getD]

lemma getD_replicate_self (n : ℕ) (a d : ℚ) (i : ℕ) (h : i < n) :
    (List.replicate n a).getD i d = a := by
  rw [List.getD_eq_getElem?_getD, List.getElem?_replicate, if_pos h]
  rfl

lemma length_flatMap_two {α β : Type} (l : List α) (g : α → List β)
    (h : ∀ a, (g a).length = 2) : (l.flatMap g).length = 2 * l.length := by
  induction l with
  | nil => simp
  | cons x rest ih =>
    simp only [List.flatMap_cons, List.length_append, h x, ih, List.length_cons]
    omega

lemma lastIdxOf_go_bound (id : String) :
    ∀ (ids : List String) (c : ℕ) (o : Option ℕ) (k : ℕ),
      (∀ j, o = some j → j < c) →
      (ids.foldl (fun (st : ℕ × Option ℕ) i =>
        (st.1 + 1, if i = id then some st.1 else st.2)) (c, o)).2 = some k →
      k < c + ids.length := by
  intro ids
  induction ids with
  | nil =>
    intro c o k h hk
    simpa using h k hk
  | cons x rest ih =>
    intro c o k h hk
    simp only [List.foldl_cons] at hk
    have hb : k < c + 1 + rest.length := by
      refine ih (c + 1) (if x = id then some c else o) k ?_ hk
      intro j hj
      by_cases hx : x = id
      · simp only [if_pos hx, Option.some.injEq] at hj
        omega
      · simp only [if_neg hx] at hj
        have := h j hj
        omega
    simp only [List.length_cons]
    omega

lemma lastIdxOf_lt (ids : List String) (id : String) (k : ℕ)
    (h : lastIdxOf ids id = some k) : k < ids.length := by
  have := lastIdxOf_go_bound id ids 0 none k (by simp) h
  simpa using this

lemma contRow_entries (ids : List String) (eff : ℚ) (p n : String) (pi ni : ℕ)
    (hp : lastIdxOf ids p = some pi) (hn : lastIdxOf ids n = some ni)
    (hne : pi ≠ ni) :
    (contRow ids ids.length eff (p, n)).getD ni 0 = 1 ∧
    (contRow ids ids.length eff (p, n)).getD pi 0 = -eff := by
  have hpl := lastIdxOf_lt ids p pi hp
  have hnl := lastIdxOf_lt ids n ni hn
  unfold contRow
  simp only [hp, hn]
  constructor
  · rw [getD_set_ne _ _ _ _ _ hne]
    exact getD_set_self _ _ _ _ (by simpa using hnl)
  · exact getD_set_self _ _ _ _ (by simpa using hpl)

/-- C2 counterexample: a rope whose adjacent pair repeats one segment id
(`["s1", "s1"]`) makes `prev` and `next` share one unknown; the second
write `A[r][pIdx] = -efficiency` overwrites the `+1`, so the emitted row
does NOT carry coefficient +1 on the next segment's unknown. -/
theorem continuityRow_counterexample :
    (((buildSystem [anchorNodeO, anchorNodeB] [segAB]
        [⟨"r1", ["s1", "s1"], none⟩] 100 (9/10)).A.getD 0 []).getD 0 0
      = -(9/10)) ∧ (-(9/10) : ℚ) ≠ 1 := by
  exact ⟨by with_unfolding_all rfl, by norm_num⟩

/-- C2 amended: the system builder emits, after the `2·F` force-balance
rows, exactly one continuity row per adjacent pair of each rope's ordered
sequence (in order), each with right-hand side 0 and weight 1000.0, while
every force-balance row has weight 1.0; whenever the pair's two segment
ids resolve to DISTINCT unknown indices, that row carries coefficient +1
on the next segment's unknown and -efficiency on the previous segment's
unknown.  (For a degenerate pair with equal indices the second write wins
and the coefficient is -efficiency.) -/
theorem continuityRows_spec (nodes : List Node) (segments : List Segment)
    (ropes : List Rope) (W eff : ℚ) :
    ((buildSystem nodes segments ropes W eff).A.drop
        (2 * (freeNodesOf nodes).length) =
      ropes.flatMap (fun rope => (adjPairs rope.segmentIds).map
        (contRow (segments.map Segment.id) (segments.map Segment.id).length eff))) ∧
    ((buildSystem nodes segments ropes W eff).B.drop
        (2 * (freeNodesOf nodes).length) =
      ropes.flatMap (fun rope => (adjPairs rope.segmentIds).map (fun _ => (0 : ℚ)))) ∧
    ((buildSystem nodes segments ropes W eff).Weights.drop
        (2 * (freeNodesOf nodes).length) =
      ropes.flatMap (fun rope => (adjPairs rope.segmentIds).map (fun _ => (1000 : ℚ)))) ∧
    (∀ k, k < 2 * (freeNodesOf nodes).length →
      (buildSystem nodes segments ropes W eff).Weights.getD k 0 = 1) ∧
    (∀ p n pi ni, lastIdxOf (segments.map Segment.id) p = some pi →
      lastIdxOf (segments.map Segment.id) n = some ni → pi ≠ ni →
      (contRow (segments.map Segment.id) (segments.map Segment.id).length eff
        (p, n)).getD ni 0 = 1 ∧
      (contRow (segments.map Segment.id) (segments.map Segment.id).length eff
        (p, n)).getD pi 0 = -eff) := by
  have hA : (buildSystem nodes segments ropes W eff).A =
      (freeNodesOf nodes).flatMap (fun nd =>
        let pr := forceRowPair nodes segments nd
        [pr.1, pr.2]) ++
      ropes.flatMap (fun rope => (adjPairs rope.segmentIds).map
        (contRow (segments.map Segment.id) (segments.map Segment.id).length eff)) := rfl
  have hB : (buildSystem nodes segments ropes W eff).B =
      (freeNodesOf nodes).flatMap (fun nd => [(0 : ℚ), -(extYOf W nd)]) ++
      ropes.flatMap (fun rope => (adjPairs rope.segmentIds).map (fun _ => (0 : ℚ))) := rfl
  have hW : (buildSystem nodes segments ropes W eff).Weights =
      List.replicate (2 * (freeNodesOf nodes).length) 1 ++
      ropes.flatMap (fun rope => (adjPairs rope.segmentIds).map (fun _ => (1000 : ℚ))) := rfl
  refine ⟨?_, ?_, ?_, ?_, ?_⟩
  · rw [hA]
    exact List.drop_left' (length_flatMap_two _ _ (fun _ => rfl))
  · rw [hB]
    exact List.drop_left' (length_flatMap_two _ _ (fun _ => rfl))
  · rw [hW]
    exact List.drop_left' (List.length_replicate _ _)
  · intro k hk
    rw [hW, List.getD_append _ _ _ _ (by simpa using hk)]
    exact getD_replicate_self _ _ _ _ hk
  · intro p n pi ni hp hn hne
    exact contRow_entries _ _ _ _ _ _ hp hn hne

/-- Second segment from the load to the anchor (2:1 reeving). -/
def hangSegment2 : Segment := ⟨"s2", "L", "A"⟩

/-- Two-segment rope threading `s1` then `s2`. -/
def twoSegRope : Rope := ⟨"r1", ["s1", "s2"], none⟩

/-- Witness for C2 on the two-segment rig with efficiency 9/10. -/
theorem continuityRows_spec_witness :
    ((contRow (["s1", "s2"]) 2 (9/10) ("s1", "s2")).getD 1 0 = 1 ∧
      (contRow (["s1", "s2"]) 2 (9/10) ("s1", "s2")).getD 0 0 = -(9/10)) ∧
    (buildSystem hangNodes [hangSegment, hangSegment2] [twoSegRope] 100
      (9/10)).Weights.getD 0 0 = 1 := by
  have h := continuityRows_spec hangNodes [hangSegment, hangSegment2] [twoSegRope]
    100 (9/10)
  exact ⟨h.2.2.2.2 "s1" "s2" 0 1 (by decide) (by decide) (by decide),
    h.2.2.2.1 0 (by decide)⟩

/-! ## Gaussian elimination lemmas. -/

lemma backSubAux_length (M : List (List ℚ)) (x : List ℚ) (n : ℕ) :
    ∀ fuel, (backSubAux M x n fuel).length = fuel := by
  intro fuel
  induction fuel with
  | zero => rfl
  | succ fuel ih => simp [backSubAux, ih]

lemma backSubAux_getD_zero (M : List (List ℚ)) (x : List ℚ) (n : ℕ) :
    ∀ fuel d, fuel ≤ n → d < fuel →
      |(M.getD (n - fuel + d) []).getD (n - fuel + d) 0| ≤ eps10 →
      (backSubAux M x n fuel).getD d 0 = 0 := by
  intro fuel
  induction fuel with
  | zero =>
    intro d _ hd
    exact absurd hd (by omega)
  | succ fuel ih =>
    intro d hfn hd hdiag
    cases d with
    | zero =>
      simp only [backSubAux, List.getD_cons_zero]
      rw [if_neg (not_lt.2 (by simpa using hdiag))]
    | succ d' =>
      simp only [backSubAux, List.getD_cons_succ]
      refine ih d' (by omega) (by omega) ?_
      have he : n - (fuel + 1) + (d' + 1) = n - fuel + d' := by omega
      rw [← he]
      exact hdiag

lemma foldl_max_spec (e : ℕ → ℚ) :
    ∀ (L : List ℕ) (init : ℕ),
      (|e init| ≤ |e (L.foldl (fun imax i => if |e imax| < |e i| then i else imax) init)|) ∧
      (∀ j ∈ L,
        |e j| ≤ |e (L.foldl (fun imax i => if |e imax| < |e i| then i else imax) init)|) ∧
      (L.foldl (fun imax i => if |e imax| < |e i| then i else imax) init = init ∨
        L.foldl (fun imax i => if |e imax| < |e i| then i else imax) init ∈ L) := by
  intro L
  induction L with
  | nil =>
    intro init
    exact ⟨le_refl _, by simp, Or.inl rfl⟩
  | cons a L ih =>
    intro init
    simp only [List.foldl_cons]
    obtain ⟨h1, h2, h3⟩ := ih (if |e init| < |e a| then a else init)
    have hI : |e init| ≤ |e (if |e init| < |e a| then a else init)| := by
      split_ifs with hc
      · exact le_of_lt hc
      · exact le_refl _
    have hA : |e a| ≤ |e (if |e init| < |e a| then a else init)| := by
      split_ifs with hc
      · exact le_refl _
      · exact not_lt.1 hc
    refine ⟨le_trans hI h1, ?_, ?_⟩
    · intro j hj
      rcases List.mem_cons.1 hj with rfl | hj'
      · exact le_trans hA h1
      · exact h2 j hj'
    · rcases h3 with h | h
      · rw [h]
        split_ifs with hc
        · exact Or.inr (List.mem_cons_self _ _)
        · exact Or.inl rfl
      · exact Or.inr (List.mem_cons_of_mem _ h)

lemma pivotIdx_max (M : List (List ℚ)) (k n i : ℕ) (hki : k ≤ i) (hin : i < n) :
    |(M.getD i []).getD k 0| ≤ |(M.getD (pivotIdx M k n) []).getD k 0| := by
  have h := foldl_max_spec (fun j => (M.getD j []).getD k 0)
    ((List.range (n - (k + 1))).map (fun d => k + 1 + d)) k
  rcases eq_or_lt_of_le hki with rfl | hlt
  · exact h.1
  · refine h.2.1 i ?_
    simp only [List.mem_map, List.mem_range]
    exact ⟨i - (k + 1), by omega, by omega⟩

lemma pivotIdx_bounds (M : List (List ℚ)) (k n : ℕ) (hkn : k < n) :
    k ≤ pivotIdx M k n ∧ pivotIdx M k n < n := by
  have h := (foldl_max_spec (fun j => (M.getD j []).getD k 0)
    ((List.range (n - (k + 1))).map (fun d => k + 1 + d)) k).2.2
  rcases h with h | h
  · rw [show pivotIdx M k n = ((List.range (n - (k + 1))).map (fun d => k + 1 + d)).foldl
      (fun imax i =>
        if |((M.getD imax []).getD k 0)| < |((M.getD i []).getD k 0)| then i else imax) k
      from rfl, h]
    exact ⟨le_refl _, hkn⟩
  · simp only [List.mem_map, List.mem_range] at h
    obtain ⟨d, hd, hdk⟩ := h
    rw [show pivotIdx M k n = ((List.range (n - (k + 1))).map (fun d => k + 1 + d)).foldl
      (fun imax i =>
        if |((M.getD imax []).getD k 0)| < |((M.getD i []).getD k 0)| then i else imax) k
      from rfl, ← hdk]
    omega

/-- C6: `solveGaussian` is total on every square system (the embedding
returns a plain list, not an `Option`): the result always has length
`A.length`, even for singular input; back substitution assigns 0 to any
unknown whose (post-elimination) diagonal entry is at most `1e-10` in
absolute value; and partial pivoting selects a row index in `[k, n)`
whose column-`k` entry has the largest absolute value among the remaining
rows.  (The skip of the elimination step for a sub-threshold pivot is the
first branch of `elimStep`.) -/
theorem solveGaussian_spec :
    (∀ (A : List (List ℚ)) (b : List ℚ), (solveGaussian A b).length = A.length) ∧
    (∀ (A : List (List ℚ)) (b : List ℚ) (i : ℕ), i < A.length →
      |(((gaussForward A.length A.length (A, b)).1.getD i []).getD i 0)| ≤ eps10 →
      (solveGaussian A b).getD i 0 = 0) ∧
    (∀ (M : List (List ℚ)) (k n i : ℕ), k ≤ i → i < n →
      |(M.getD i []).getD k 0| ≤ |(M.getD (pivotIdx M k n) []).getD k 0|) ∧
    (∀ (M : List (List ℚ)) (k n : ℕ), k < n →
      k ≤ pivotIdx M k n ∧ pivotIdx M k n < n) := by
  refine ⟨?_, ?_, pivotIdx_max, pivotIdx_bounds⟩
  · intro A b
    exact backSubAux_length _ _ _ _
  · intro A b i hi hdiag
    unfold solveGaussian
    refine backSubAux_getD_zero _ _ _ A.length i (le_refl _) hi ?_
    have he : A.length - A.length + i = i := by omega
    rw [he]
    exact hdiag

/-- Witness for C6: a singular 1×1 system and a concrete pivot search. -/
theorem solveGaussian_spec_witness :
    (solveGaussian [[0]] [5]).length = 1 ∧
    (solveGaussian [[0]] [5]).getD 0 0 = 0 ∧
    |((([[3], [4]] : List (List ℚ)).getD 0 []).getD 0 0)| ≤
      |((([[3], [4]] : List (List ℚ)).getD (pivotIdx [[3], [4]] 0 2) []).getD 0 0)| ∧
    (0 ≤ pivotIdx [[3], [4]] 0 2 ∧ pivotIdx [[3], [4]] 0 2 < 2) :=
  ⟨solveGaussian_spec.1 [[0]] [5],
   solveGaussian_spec.2.1 [[0]] [5] 0 (by norm_num) (by with_unfolding_all decide),
   solveGaussian_spec.2.2.1 [[3], [4]] 0 2 0 (le_refl 0) (by norm_num),
   solveGaussian_spec.2.2.2 [[3], [4]] 0 2 (by norm_num)⟩

/-! ## Association-list and index-map lemmas for the force-balance
analysis. -/

lemma mapGet_nil {α : Type} (k : String) : mapGet ([] : List (String × α)) k = none := rfl

lemma mapGet_cons {α : Type} (p : String × α) (m : List (String × α)) (k : String) :
    mapGet (p :: m) k = if p.1 = k then some p.2 else mapGet m k := by
  by_cases h : p.1 = k
  · simp [mapGet, List.find?_cons, h]
  · simp [mapGet, List.find?_cons, h]

lemma mapGet_mapSet_self {α : Type} (m : List (String × α)) (k : String) (v : α) :
    mapGet (mapSet m k v) k = some v := by
  induction m with
  | nil => simp [mapSet, mapGet_cons, mapGet_nil]
  | cons q rest ih =>
    by_cases hq : q.1 = k
    · simp [mapSet, hq, mapGet_cons]
    · simp [mapSet, hq, mapGet_cons, ih]

lemma mapGet_mapSet_ne {α : Type} (m : List (String × α)) (k k' : String) (v : α)
    (h : k ≠ k') : mapGet (mapSet m k v) k' = mapGet m k' := by
  induction m with
  | nil => simp [mapSet, mapGet_cons, mapGet_nil, h]
  | cons q rest ih =>
    by_cases hq : q.1 = k
    · simp [mapSet, hq, mapGet_cons, h]
    · simp [mapSet, hq, mapGet_cons, ih]

lemma mem_mapSet {α : Type} (m : List (String × α)) (k : String) (v : α)
    (p : String × α) (hp : p ∈ mapSet m k v) : p.1 = k ∨ p ∈ m := by
  induction m with
  | nil =>
    simp only [mapSet, List.mem_singleton] at hp
    subst hp
    exact Or.inl rfl
  | cons q rest ih =>
    simp only [mapSet] at hp
    split at hp
    · rcases List.mem_cons.1 hp with rfl | h
      · exact Or.inl rfl
      · exact Or.inr (List.mem_cons_of_mem _ h)
    · rcases List.mem_cons.1 hp with rfl | h
      · exact Or.inr (List.mem_cons_self _ _)
      · rcases ih h with h' | h'
        · exact Or.inl h'
        · exact Or.inr (List.mem_cons_of_mem _ h')

lemma lastIdxOf_go_spec (id : String) :
    ∀ (ids : List String) (c : ℕ) (o : Option ℕ),
      (ids.foldl (fun (st : ℕ × Option ℕ) i =>
        (st.1 + 1, if i = id then some st.1 else st.2)) (c, o)).2 =
      (match lastIdxOf ids id with
       | some k => some (k + c)
       | none => o) := by
  intro ids
  induction ids with
  | nil =>
    intro c o
    simp [lastIdxOf]
  | cons x rest ih =>
    intro c o
    have hL : lastIdxOf (x :: rest) id =
        (match lastIdxOf rest id with
         | some k => some (k + 1)
         | none => if x = id then some 0 else none) := by
      show (List.foldl _ ((0 : ℕ) + 1, if x = id then some 0 else none) rest).2 = _
      rw [ih 1 (if x = id then some 0 else none)]
    simp only [List.foldl_cons]
    rw [ih (c + 1) (if x = id then some c else o), hL]
    cases hrest : lastIdxOf rest id with
    | some k =>
      simp only []
      congr 1
      omega
    | none =>
      by_cases hx : x = id
      · simp [hx]
      · simp [hx]

lemma lastIdxOf_cons (x : String) (rest : List String) (id : String) :
    lastIdxOf (x :: rest) id =
      (match lastIdxOf rest id with
       | some k => some (k + 1)
       | none => if x = id then some 0 else none) := by
  show (List.foldl _ ((0 : ℕ) + 1, if x = id then some 0 else none) rest).2 = _
  rw [lastIdxOf_go_spec id rest 1 (if x = id then some 0 else none)]

lemma lastIdxOf_eq_none_of_not_mem (ids : List String) (id : String)
    (h : id ∉ ids) : lastIdxOf ids id = none := by
  induction ids with
  | nil => rfl
  | cons x rest ih =>
    rw [lastIdxOf_cons]
    have hx : x ≠ id := fun hxi => h (hxi ▸ List.mem_cons_self _ _)
    rw [ih (fun hm => h (List.mem_cons_of_mem _ hm))]
    simp [hx]

lemma lastIdxOf_isSome_of_mem (ids : List String) (id : String)
    (h : id ∈ ids) : ∃ k, lastIdxOf ids id = some k := by
  induction ids with
  | nil => exact absurd h (List.not_mem_nil _)
  | cons x rest ih =>
    rw [lastIdxOf_cons]
    by_cases hm : id ∈ rest
    · obtain ⟨k, hk⟩ := ih hm
      exact ⟨k + 1, by rw [hk]⟩
    · have hx : x = id := by
        rcases List.mem_cons.1 h with h' | h'
        · exact h'.symm
        · exact absurd h' hm
      rw [lastIdxOf_eq_none_of_not_mem rest id hm]
      exact ⟨0, by simp [hx]⟩

lemma lastIdxOf_mem_of_some (ids : List String) (id : String) (k : ℕ)
    (h : lastIdxOf ids id = some k) : id ∈ ids := by
  by_cases hm : id ∈ ids
  · exact hm
  · rw [lastIdxOf_eq_none_of_not_mem ids id hm] at h
    exact absurd h (by simp)

/-- Dot product of the first `m` entries (missing entries read as 0),
matching how a dense row multiplies the unknown vector. -/
def dotD (r v : List ℚ) (m : ℕ) : ℚ :=
  ((List.range m).map (fun j => r.getD j 0 * v.getD j 0)).sum

/-- The clamped tension vector `Math.max(0, tensionValues[idx])`. -/
def clampedVec (raw : List ℚ) : List ℚ := raw.map (fun v => max 0 v)

lemma dotD_succ (r v : List ℚ) (m : ℕ) :
    dotD r v (m + 1) = dotD r v m + r.getD m 0 * v.getD m 0 := by
  simp [dotD, List.range_succ]

lemma dotD_congr (r r' v : List ℚ) (m : ℕ)
    (h : ∀ j, j < m → r.getD j 0 = r'.getD j 0) : dotD r v m = dotD r' v m := by
  unfold dotD
  congr 1
  refine List.map_congr_left ?_
  intro j hj
  rw [h j (List.mem_range.1 hj)]

lemma dotD_addAt (row v : List ℚ) (m i : ℕ) (c : ℚ) (him : i < m)
    (hir : i < row.length) :
    dotD (addAt row i c) v m = dotD row v m + c * v.getD i 0 := by
  induction m with
  | zero => exact absurd him (by omega)
  | succ m ih =>
    by_cases hi : i = m
    · subst hi
      rw [dotD_succ, dotD_succ]
      have h1 : ∀ j, j < i → (addAt row i c).getD j 0 = row.getD j 0 := by
        intro j hj
        exact getD_set_ne _ _ _ _ _ (by omega)
      rw [dotD_congr _ row v i h1]
      have h2 : (addAt row i c).getD i 0 = row.getD i 0 + c :=
        getD_set_self _ _ _ _ hir
      rw [h2]
      ring
    · have him' : i < m := by omega
      rw [dotD_succ, dotD_succ, ih him']
      have h2 : (addAt row i c).getD m 0 = row.getD m 0 :=
        getD_set_ne _ _ _ _ _ hi
      rw [h2]
      ring

lemma dotD_replicate_zero (v : List ℚ) (n m : ℕ) :
    dotD (List.replicate n (0 : ℚ)) v m = 0 := by
  unfold dotD
  rw [List.sum_eq_zero]
  intro x hx
  simp only [List.mem_map, List.mem_range] at hx
  obtain ⟨j, _, rfl⟩ := hx
  have : (List.replicate n (0 : ℚ)).getD j 0 = 0 := by
    by_cases hj : j < n
    · exact getD_replicate_self _ _ _ _ hj
    · rw [List.getD_eq_getElem?_getD, List.getElem?_replicate, if_neg hj]
      rfl
  rw [this, zero_mul]

lemma clampedVec_getD (raw : List ℚ) (k : ℕ) :
    (clampedVec raw).getD k 0 = max 0 (raw.getD k 0) := by
  unfold clampedVec
  rw [List.getD_eq_getElem?_getD, List.getD_eq_getElem?_getD, List.getElem?_map]
  cases h : raw[k]? with
  | none => simp
  | some q => simp

lemma buildTensionsGo_skip (raw : List ℚ) (id : String) :
    ∀ (ids : List String) (i : ℕ) (m : List (String × ℚ)), id ∉ ids →
      mapGet (buildTensionsGo raw i ids m) id = mapGet m id := by
  intro ids
  induction ids with
  | nil => intro i m _; rfl
  | cons x rest ih =>
    intro i m hmem
    have hx : x ≠ id := fun h => hmem (h ▸ List.mem_cons_self _ _)
    show mapGet (buildTensionsGo raw (i + 1) rest (mapSet m x (max 0 (raw.getD i 0)))) id = _
    rw [ih (i + 1) _ (fun h => hmem (List.mem_cons_of_mem _ h)),
      mapGet_mapSet_ne _ _ _ _ hx]

lemma buildTensionsGo_mapGet (raw : List ℚ) (id : String) :
    ∀ (ids : List String) (i : ℕ) (m : List (String × ℚ)) (k : ℕ),
      ids.Nodup → (∀ p ∈ m, p.1 ∉ ids) →
      lastIdxOf ids id = some k →
      mapGet (buildTensionsGo raw i ids m) id = some (max 0 (raw.getD (i + k) 0)) := by
  intro ids
  induction ids with
  | nil =>
    intro i m k _ _ hk
    exact absurd hk (by simp [lastIdxOf])
  | cons x rest ih =>
    intro i m k hnd hkeys hk
    rw [lastIdxOf_cons] at hk
    show mapGet (buildTensionsGo raw (i + 1) rest (mapSet m x (max 0 (raw.getD i 0)))) id = _
    cases hrest : lastIdxOf rest id with
    | some k' =>
      rw [hrest] at hk
      simp only [Option.some.injEq] at hk
      subst hk
      have hxid : x ≠ id := by
        intro hxi
        exact (List.nodup_cons.1 hnd).1 (hxi ▸ lastIdxOf_mem_of_some rest id k' hrest)
      rw [ih (i + 1) _ k' (List.nodup_cons.1 hnd).2 ?_ hrest]
      · have he : i + 1 + k' = i + (k' + 1) := by omega
        rw [he]
      · intro p hp
        rcases mem_mapSet _ _ _ _ hp with h | h
        · intro hmem
          exact (List.nodup_cons.1 hnd).1 (h ▸ hmem)
        · intro hmem
          exact hkeys p h (List.mem_cons_of_mem _ hmem)
    | none =>
      rw [hrest] at hk
      by_cases hx : x = id
      · subst hx
        rw [if_pos rfl] at hk
        simp only [Option.some.injEq] at hk
        subst hk
        have hidrest : x ∉ rest := by
          intro hm
          obtain ⟨k', hk'⟩ := lastIdxOf_isSome_of_mem rest x hm
          rw [hrest] at hk'
          exact absurd hk' (by simp)
        rw [buildTensionsGo_skip raw x rest (i + 1) _ hidrest,
          mapGet_mapSet_self m x (max 0 (raw.getD i 0)), Nat.add_zero]
      · rw [if_neg hx] at hk
        exact absurd hk (by simp)

lemma buildTensions_mapGet (ids : List String) (raw : List ℚ) (id : String) (k : ℕ)
    (hnd : ids.Nodup) (hk : lastIdxOf ids id = some k) :
    mapGet (buildTensions ids raw) id = some (max 0 (raw.getD k 0)) := by
  have h := buildTensionsGo_mapGet raw id ids 0 [] k hnd (by simp) hk
  simpa [buildTensions] using h

/-- The force-balance residual of the claim: external downward load at
the node plus the vector sum over incident segments of (unit direction
toward the other endpoint) times (resolved tension). -/
def nodeResidual (nodes : List Node) (segments : List Segment)
    (tensions : List (String × ℚ)) (loadWeight : ℚ) (node : Node) : Vector2 :=
  segments.foldl (fun f seg =>
    if seg.nodeAId = node.id ∨ seg.nodeBId = node.id then
      f.add ((dirFrom nodes node seg).scale ((mapGet tensions seg.id).getD 0))
    else f) ⟨0, extYOf loadWeight node⟩

/-- One step of the force-row assembly fold of `forceRowPair`, named for
the fold analysis. -/
def rowStep (nodes : List Node) (segmentsAll : List Segment) (nd : Node)
    (acc : List ℚ × List ℚ) (seg : Segment) : List ℚ × List ℚ :=
  if seg.nodeAId = nd.id ∨ seg.nodeBId = nd.id then
    (addAt acc.1 ((lastIdxOf (segmentsAll.map Segment.id) seg.id).getD 0)
      (dirFrom nodes nd seg).x,
     addAt acc.2 ((lastIdxOf (segmentsAll.map Segment.id) seg.id).getD 0)
      (dirFrom nodes nd seg).y)
  else acc

/-- x-contribution of one segment to a force row, evaluated against a
tension vector. -/
def contribX (nodes : List Node) (segmentsAll : List Segment) (cv : List ℚ)
    (nd : Node) (seg : Segment) : ℚ :=
  if seg.nodeAId = nd.id ∨ seg.nodeBId = nd.id then
    (dirFrom nodes nd seg).x *
      cv.getD ((lastIdxOf (segmentsAll.map Segment.id) seg.id).getD 0) 0
  else 0

/-- y-contribution of one segment to a force row. -/
def contribY (nodes : List Node) (segmentsAll : List Segment) (cv : List ℚ)
    (nd : Node) (seg : Segment) : ℚ :=
  if seg.nodeAId = nd.id ∨ seg.nodeBId = nd.id then
    (dirFrom nodes nd seg).y *
      cv.getD ((lastIdxOf (segmentsAll.map Segment.id) seg.id).getD 0) 0
  else 0

lemma forceRowPair_eq_foldl (nodes : List Node) (segments : List Segment) (nd : Node) :
    forceRowPair nodes segments nd =
      segments.foldl (rowStep nodes segments nd)
        (List.replicate (segments.map Segment.id).length 0,
         List.replicate (segments.map Segment.id).length 0) := rfl

lemma rowStep_fold_dot (nodes : List Node) (segmentsAll : List Segment) (nd : Node)
    (cv : List ℚ) :
    ∀ (segs : List Segment) (acc : List ℚ × List ℚ),
      acc.1.length = (segmentsAll.map Segment.id).length →
      acc.2.length = (segmentsAll.map Segment.id).length →
      (∀ seg ∈ segs, (lastIdxOf (segmentsAll.map Segment.id) seg.id).getD 0 <
        (segmentsAll.map Segment.id).length) →
      dotD ((segs.foldl (rowStep nodes segmentsAll nd) acc).1) cv
          (segmentsAll.map Segment.id).length =
        dotD acc.1 cv (segmentsAll.map Segment.id).length +
          (segs.map (contribX nodes segmentsAll cv nd)).sum ∧
      dotD ((segs.foldl (rowStep nodes segmentsAll nd) acc).2) cv
          (segmentsAll.map Segment.id).length =
        dotD acc.2 cv (segmentsAll.map Segment.id).length +
          (segs.map (contribY nodes segmentsAll cv nd)).sum := by
  intro segs
  induction segs with
  | nil =>
    intro acc _ _ _
    simp
  | cons s rest ih =>
    intro acc h1 h2 hb
    simp only [List.foldl_cons, List.map_cons, List.sum_cons]
    by_cases hc : s.nodeAId = nd.id ∨ s.nodeBId = nd.id
    · have hidx : (lastIdxOf (segmentsAll.map Segment.id) s.id).getD 0 <
          (segmentsAll.map Segment.id).length := hb s (List.mem_cons_self _ _)
      have hstep : rowStep nodes segmentsAll nd acc s =
          (addAt acc.1 ((lastIdxOf (segmentsAll.map Segment.id) s.id).getD 0)
            (dirFrom nodes nd s).x,
           addAt acc.2 ((lastIdxOf (segmentsAll.map Segment.id) s.id).getD 0)
            (dirFrom nodes nd s).y) := by
        unfold rowStep
        rw [if_pos hc]
      obtain ⟨ihx, ihy⟩ := ih (rowStep nodes segmentsAll nd acc s)
        (by rw [hstep]; simpa [addAt] using h1)
        (by rw [hstep]; simpa [addAt] using h2)
        (fun seg hseg => hb seg (List.mem_cons_of_mem _ hseg))
      constructor
      · rw [ihx, hstep]
        show dotD (addAt acc.1 _ _) cv _ + _ = _
        rw [dotD_addAt _ _ _ _ _ hidx (by omega)]
        unfold contribX
        rw [if_pos hc]
        ring
      · rw [ihy, hstep]
        show dotD (addAt acc.2 _ _) cv _ + _ = _
        rw [dotD_addAt _ _ _ _ _ hidx (by omega)]
        unfold contribY
        rw [if_pos hc]
        ring
    · have hstep : rowStep nodes segmentsAll nd acc s = acc := by
        unfold rowStep
        rw [if_neg hc]
      rw [hstep]
      obtain ⟨ihx, ihy⟩ := ih acc h1 h2
        (fun seg hseg => hb seg (List.mem_cons_of_mem _ hseg))
      have hcx : contribX nodes segmentsAll cv nd s = 0 := by
        unfold contribX
        rw [if_neg hc]
      have hcy : contribY nodes segmentsAll cv nd s = 0 := by
        unfold contribY
        rw [if_neg hc]
      rw [hcx, hcy, ihx, ihy]
      constructor <;> ring

lemma nodeResidual_fold (nodes : List Node) (nd : Node) (T : List (String × ℚ)) :
    ∀ (segs : List Segment) (f0 : Vector2),
      (segs.foldl (fun f seg =>
        if seg.nodeAId = nd.id ∨ seg.nodeBId = nd.id then
          f.add ((dirFrom nodes nd seg).scale ((mapGet T seg.id).getD 0))
        else f) f0) =
      ⟨f0.x + (segs.map (fun seg =>
          if seg.nodeAId = nd.id ∨ seg.nodeBId = nd.id then
            (dirFrom nodes nd seg).x * (mapGet T seg.id).getD 0 else 0)).sum,
       f0.y + (segs.map (fun seg =>
          if seg.nodeAId = nd.id ∨ seg.nodeBId = nd.id then
            (dirFrom nodes nd seg).y * (mapGet T seg.id).getD 0 else 0)).sum⟩ := by
  intro segs
  induction segs with
  | nil =>
    intro f0
    cases f0
    simp
  | cons s rest ih =>
    intro f0
    simp only [List.foldl_cons, List.map_cons, List.sum_cons]
    by_cases hc : s.nodeAId = nd.id ∨ s.nodeBId = nd.id
    · rw [if_pos hc, if_pos hc, if_pos hc, ih]
      simp only [Vector2.add, Vector2.scale]
      congr 1 <;> ring
    · rw [if_neg hc, if_neg hc, if_neg hc, ih]
      congr 1 <;> ring

lemma idx_lt_of_mem (segments : List Segment) (seg : Segment) (hmem : seg ∈ segments) :
    (lastIdxOf (segments.map Segment.id) seg.id).getD 0 <
      (segments.map Segment.id).length := by
  obtain ⟨k, hk⟩ := lastIdxOf_isSome_of_mem (segments.map Segment.id) seg.id
    (List.mem_map_of_mem _ hmem)
  rw [hk]
  exact lastIdxOf_lt _ _ _ hk

lemma tension_lookup (segments : List Segment) (raw : List ℚ)
    (hnd : (segments.map Segment.id).Nodup) (seg : Segment) (hmem : seg ∈ segments) :
    (mapGet (buildTensions (segments.map Segment.id) raw) seg.id).getD 0 =
      (clampedVec raw).getD
        ((lastIdxOf (segments.map Segment.id) seg.id).getD 0) 0 := by
  obtain ⟨k, hk⟩ := lastIdxOf_isSome_of_mem (segments.map Segment.id) seg.id
    (List.mem_map_of_mem _ hmem)
  rw [buildTensions_mapGet _ raw seg.id k hnd hk, hk, clampedVec_getD]
  rfl

/-- C1 counterexample: in the horizontal layout the load node's only
segment is horizontal, so no tension can balance gravity: the solved
result leaves a force-balance residual of magnitude equal to the full
load weight (squared residual 10000 for `loadWeight = 100`), far above
the squared tolerance `(1e-3 · loadWeight)²` — the claimed bound fails
for arbitrary node layouts. -/
theorem forceBalance_counterexample :
    (Option.map (fun r =>
        (nodeResidual horizNodes [hangSegment] r.tensions 100 loadNodeH).lengthSq)
      (solveEquilibrium horizNodes [hangSegment] [hangRope] 100 1 none)
      = some 10000) ∧
    loadNodeH ∈ freeNodesOf horizNodes ∧
    ¬((10000 : ℚ) ≤ ((100 : ℚ) / 1000) ^ 2) := by
  refine ⟨by with_unfolding_all rfl, by decide, by norm_num⟩

/-- C1 amended: the force-balance property holds for the solved result
whenever the clamped solution actually satisfies the free nodes'
balance rows (consistent rigs — e.g. every preset reeving solved
exactly), with distinct segment ids: then every free node's residual is
in fact 0, hence within `(1e-3 · loadWeight)²` in squared magnitude.  It
does NOT hold for arbitrary node layouts (see the counterexample). -/
theorem forceBalance_of_rowConsistent (nodes : List Node) (segments : List Segment)
    (ropes : List Rope) (W eff : ℚ) (raw : List ℚ) (r : SimulationResult)
    (hnd : (segments.map Segment.id).Nodup)
    (hr : solveEquilibrium nodes segments ropes W eff none = some r)
    (hraw : solveWeightedLeastSquares
        (assembleInline nodes segments ropes W (effectiveEfficiency eff none)).A
        (assembleInline nodes segments ropes W (effectiveEfficiency eff none)).B
        (assembleInline nodes segments ropes W (effectiveEfficiency eff none)).Weights
        = some raw)
    (hrows : ∀ nd ∈ freeNodesOf nodes,
      dotD (forceRowPair nodes segments nd).1 (clampedVec raw)
        (segments.map Segment.id).length = 0 ∧
      dotD (forceRowPair nodes segments nd).2 (clampedVec raw)
        (segments.map Segment.id).length = -(extYOf W nd)) :
    ∀ nd ∈ freeNodesOf nodes,
      (nodeResidual nodes segments r.tensions W nd).lengthSq ≤ (W / 1000) ^ 2 := by
  intro nd hnds
  obtain ⟨hx, hy⟩ := hrows nd hnds
  by_cases hs : segments = []
  · subst hs
    rw [emptyGraph_spec nodes ropes W eff none] at hr
    have hrr : r = ⟨[], [], ⟨0, W, 1, 1⟩⟩ := (Option.some.inj hr).symm
    subst hrr
    have h0 : dotD (forceRowPair nodes [] nd).2 (clampedVec raw)
        (([] : List Segment).map Segment.id).length = 0 := by
      simp [dotD]
    have hext : extYOf W nd = 0 := by
      have h1 := h0.symm.trans hy
      linarith
    show (nodeResidual nodes [] [] W nd).lengthSq ≤ _
    unfold nodeResidual
    simp only [List.foldl_nil]
    unfold Vector2.lengthSq
    simp only [hext]
    norm_num
    positivity
  · obtain ⟨tv, hwls, hpost⟩ := solveEquilibrium_eq_some _ _ _ _ _ _ _ hs hr
    rw [hraw] at hwls
    have htv : tv = raw := (Option.some.inj hwls).symm
    subst htv
    subst hpost
    have hT : (postSolve nodes segments ropes W eff none tv).tensions =
        buildTensions (segments.map Segment.id) tv :=
      postSolve_tensions_nonoverride _ _ _ _ _ _ _ (Or.inl rfl)
    rw [hT]
    have hres := nodeResidual_fold nodes nd
      (buildTensions (segments.map Segment.id) tv) segments ⟨0, extYOf W nd⟩
    rw [show nodeResidual nodes segments
        (buildTensions (segments.map Segment.id) tv) W nd =
      segments.foldl (fun f seg =>
        if seg.nodeAId = nd.id ∨ seg.nodeBId = nd.id then
          f.add ((dirFrom nodes nd seg).scale
            ((mapGet (buildTensions (segments.map Segment.id) tv) seg.id).getD 0))
        else f) ⟨0, extYOf W nd⟩ from rfl, hres]
    have hmapX : (segments.map (fun seg =>
        if seg.nodeAId = nd.id ∨ seg.nodeBId = nd.id then
          (dirFrom nodes nd seg).x *
            (mapGet (buildTensions (segments.map Segment.id) tv) seg.id).getD 0
        else 0)).sum =
        (segments.map (contribX nodes segments (clampedVec tv) nd)).sum := by
      congr 1
      refine List.map_congr_left ?_
      intro seg hseg
      by_cases hc : seg.nodeAId = nd.id ∨ seg.nodeBId = nd.id
      · rw [if_pos hc]
        unfold contribX
        rw [if_pos hc, tension_lookup segments tv hnd seg hseg]
      · rw [if_neg hc]
        unfold contribX
        rw [if_neg hc]
    have hmapY : (segments.map (fun seg =>
        if seg.nodeAId = nd.id ∨ seg.nodeBId = nd.id then
          (dirFrom nodes nd seg).y *
            (mapGet (buildTensions (segments.map Segment.id) tv) seg.id).getD 0
        else 0)).sum =
        (segments.map (contribY nodes segments (clampedVec tv) nd)).sum := by
      congr 1
      refine List.map_congr_left ?_
      intro seg hseg
      by_cases hc : seg.nodeAId = nd.id ∨ seg.nodeBId = nd.id
      · rw [if_pos hc]
        unfold contribY
        rw [if_pos hc, tension_lookup segments tv hnd seg hseg]
      · rw [if_neg hc]
        unfold contribY
        rw [if_neg hc]
    obtain ⟨hrx, hry⟩ := rowStep_fold_dot nodes segments nd (clampedVec tv) segments
      (List.replicate (segments.map Segment.id).length 0,
       List.replicate (segments.map Segment.id).length 0)
      (by simp) (by simp) (fun seg hseg => idx_lt_of_mem segments seg hseg)
    rw [forceRowPair_eq_foldl] at hx hy
    rw [hrx, dotD_replicate_zero, zero_add] at hx
    rw [hry, dotD_replicate_zero, zero_add] at hy
    rw [hmapX, hmapY, hx, hy]
    unfold Vector2.lengthSq
    have hz : ((0 : ℚ) + 0) * ((0 : ℚ) + 0) +
        (extYOf W nd + -(extYOf W nd)) * (extYOf W nd + -(extYOf W nd)) = 0 := by
      ring
    rw [hz]
    positivity

/-- Witness for C1 at the vertical hang rig, whose solved clamped tension
(= the full load weight) satisfies both balance rows of the load node. -/
theorem forceBalance_of_rowConsistent_witness :
    (nodeResidual hangNodes [hangSegment]
      ((solveEquilibrium hangNodes [hangSegment] [hangRope] 100 1 none).getD
        defaultResult).tensions 100 loadNodeV).lengthSq ≤ ((100 : ℚ) / 1000) ^ 2 :=
  forceBalance_of_rowConsistent hangNodes [hangSegment] [hangRope] 100 1 [100] _
    (by decide) (by with_unfolding_all rfl) (by with_unfolding_all rfl)
    (by with_unfolding_all decide) loadNodeV (by decide)

end RopeRigging
